import Mathlib

/-
Verification of the `signer` package of the horcrux threshold Ed25519
cosigner.  The engine operations `sign`, `dealShares`,
`getEphemeralSecretPart` and `setEphemeralSecretPart` are translated from
`signer/threshold_ed25519_signature.go`.  Collaborating components that the
repository keeps in other files (SignState, HRSTKey, the request types) and
the third-party crypto libraries (threshold-ed25519, edwards25519, RSA,
canonical JSON) are modelled from the specification, as flagged on each
definition.  Go maps are modelled as association lists, and the in-place
mutation of slices behind the `hrsMeta` map is made explicit by writing the
updated metadata back into the map.
-/

set_option maxRecDepth 100000

namespace Horcrux

/-- Little-endian interpretation of a byte list as a natural number. -/
def natOfBytes (bs : List Nat) : Nat :=
  bs.foldr (fun b acc => b + 256 * acc) 0

/-- Little-endian encoding of a natural number into exactly `k` bytes. -/
def bytesOfNatLE : Nat → Nat → List Nat
  | 0, _ => []
  | k + 1, y => y % 256 :: bytesOfNatLE k (y / 256)

/-- Little-endian encoding of a natural number into 32 bytes. -/
def bytesOfNat32 (y : Nat) : List Nat :=
  bytesOfNatLE 32 y

/-- The order of the Ed25519 group. -/
def ell : Nat := 2 ^ 252 + 27742317777372353535851937790883648493

/-- The field characteristic of the Ed25519 base field. -/
def pEd : Nat := 2 ^ 255 - 19

/-- Error taxonomy of the engine, following section 7 of the specification. -/
inductive SignErr where
  | regressionError
  | conflictingDataError
  | sameHRSError
  | noMetadataForHRS
  | ephemeralShareOutOfBounds
  | unknownPeer
  | peerAuthError
  | missingSignature
  | cryptoError
  | storageError
deriving DecidableEq, Repr

/-- Modelled from the spec: the decoded canonical Tendermint vote
sign-bytes.  The canonical serialization is injective, so byte equality of
two sign-bytes values is modelled as equality of the decoded records.  The
fields other than the timestamp are represented by `height`, `round`,
`step` and the opaque `blockID` bytes. -/
structure SignBytes where
  height : Int
  round : Int
  step : Nat
  timestamp : Int
  blockID : List Nat
deriving DecidableEq, Repr

/-- The sign-bytes record with its timestamp field cleared; two sign-bytes
values only differ by timestamp exactly when their stripped forms agree. -/
def SignBytes.stripTimestamp (sb : SignBytes) : SignBytes :=
  { sb with timestamp := 0 }

/-- Modelled from the spec: an injective byte encoding of an integer used
only to feed the signing primitive. -/
def encInt (i : Int) : List Nat :=
  (if i < 0 then 1 else 0) :: bytesOfNat32 i.natAbs

/-- Modelled from the spec: the canonical byte serialization of a
sign-bytes record, used as the message input of the signing primitive. -/
def encodeSignBytes (sb : SignBytes) : List Nat :=
  encInt sb.height ++ encInt sb.round ++ bytesOfNat32 sb.step ++
    encInt sb.timestamp ++ sb.blockID

/-- Modelled from the spec: the HRST key of `types.go`, with `Height`,
`Round` as 64-bit integers, `Step` a byte and `Timestamp` in nanoseconds. -/
structure HRSTKey where
  height : Int
  round : Int
  step : Nat
  timestamp : Int
deriving DecidableEq, Repr

/-- Modelled from the spec: the strict order on HRST keys is lexicographic
on `(Height, Round, Step)`; the timestamp is a secondary tag that does not
participate in the monotonicity order. -/
def HRSTKey.Less (a b : HRSTKey) : Bool :=
  decide (a.height < b.height ∨ (a.height = b.height ∧
    (a.round < b.round ∨ (a.round = b.round ∧ a.step < b.step))))

/-- Equality of the `(Height, Round, Step)` components of two HRST keys. -/
def HRSTKey.sameHRS (a b : HRSTKey) : Bool :=
  decide (a.height = b.height ∧ a.round = b.round ∧ a.step = b.step)

/-- Modelled from the spec: `UnpackHRST` recovers height, round, step and
timestamp from the canonical vote sign-bytes. -/
def UnpackHRST (sb : SignBytes) : HRSTKey :=
  { height := sb.height, round := sb.round, step := sb.step,
    timestamp := sb.timestamp }

/-- Modelled from the spec: the durable last-sign state of `sign_state.go`:
HRS of the last signed vote, its signature, its sign bytes, and the
aggregated ephemeral public key. -/
structure SignState where
  height : Int
  round : Int
  step : Nat
  signature : List Nat
  signBytes : SignBytes
  ephemeralPublic : List Nat
deriving DecidableEq, Repr

/-- The HRS coordinates of the persisted sign state, as an HRST key with a
zero timestamp tag. -/
def SignState.hrsKey (lss : SignState) : HRSTKey :=
  { height := lss.height, round := lss.round, step := lss.step,
    timestamp := 0 }

/-- Modelled from the spec: `CheckHRS` compares the request HRS with the
persisted record: `RegressionError` if strictly less, `sameHRS = true` if
identical, `sameHRS = false` if strictly greater. -/
def SignState.CheckHRS (lss : SignState) (hrst : HRSTKey) :
    Except SignErr Bool :=
  if HRSTKey.Less hrst lss.hrsKey then .error .regressionError
  else .ok (HRSTKey.sameHRS hrst lss.hrsKey)

/-- Modelled from the spec: `OnlyDifferByTimestamp` decodes the candidate
and the persisted sign bytes and succeeds exactly when every field other
than the timestamp is identical; otherwise it fails with
`ConflictingDataError`. -/
def SignState.OnlyDifferByTimestamp (lss : SignState) (sb : SignBytes) :
    Except SignErr Unit :=
  if sb.stripTimestamp = lss.signBytes.stripTimestamp then .ok ()
  else .error .conflictingDataError

/-- Modelled from the spec: the record handed to `SignState.Save`. -/
structure SignStateConsensus where
  height : Int
  round : Int
  step : Nat
  signature : List Nat
  signBytes : SignBytes
deriving DecidableEq, Repr

/-- The HRS coordinates of a consensus record as an HRST key. -/
def SignStateConsensus.hrsKey (c : SignStateConsensus) : HRSTKey :=
  { height := c.height, round := c.round, step := c.step, timestamp := 0 }

/-- Modelled from the spec: `Save` returns `SameHRSError` when the new
record has the same HRS and identical sign bytes, `RegressionError` when
the new HRS is strictly less than the persisted one, and otherwise
overwrites the record and fsyncs.  The durable write can fail for
environmental reasons (disk, fsync); that possibility is modelled by the
`diskOk` flag, failure surfacing as `storageError`. -/
def SignState.Save (lss : SignState) (c : SignStateConsensus)
    (diskOk : Bool) : Except SignErr SignState :=
  if HRSTKey.sameHRS c.hrsKey lss.hrsKey ∧ c.signBytes = lss.signBytes then
    .error .sameHRSError
  else if HRSTKey.Less c.hrsKey lss.hrsKey then .error .regressionError
  else if diskOk then
    .ok { height := c.height, round := c.round, step := c.step,
          signature := c.signature, signBytes := c.signBytes,
          ephemeralPublic := lss.ephemeralPublic }
  else .error .storageError

namespace tsed25519

/-- Modelled from the spec: `AddScalars` of the threshold-ed25519 package
sums scalars in the Ed25519 scalar field and returns the reduced 32-byte
little-endian encoding. -/
def AddScalars (xs : List (List Nat)) : List Nat :=
  bytesOfNat32 ((xs.map natOfBytes).sum % ell)

/-- Modelled from the spec: `AddElements` adds curve points; the group
operation is abstracted to a 32-byte combination of the operands, which no
verified property inspects algebraically. -/
def AddElements (xs : List (List Nat)) : List Nat :=
  bytesOfNat32 ((xs.map natOfBytes).sum % pEd)

/-- Modelled from the spec: `ScalarMultiplyBase` maps a 32-byte scalar to
its base-point multiple; abstracted to an injective-on-scalars 32-byte
encoding. -/
def ScalarMultiplyBase (s : List Nat) : List Nat :=
  bytesOfNat32 ((9 * natOfBytes s) % pEd)

/-- Modelled from the spec: the Ed25519 challenge scalar
`c = H(R, A, M) mod ell`; the hash is abstracted to a computable fold. -/
def hashChallenge (bs : List Nat) : Nat :=
  bs.foldl (fun a b => (a * 131 + b + 1) % ell) 7

/-- Modelled from the spec: `SignWithShare` produces the partial signature
`(R, s_i)` with `s_i = r_i + c * a_i mod ell` where `c` is the challenge
over `R`, the group public key and the message. -/
def SignWithShare (msg : SignBytes) (shareKey ephShare pub ephPub : List Nat) :
    List Nat :=
  let c := hashChallenge (ephPub ++ pub ++ encodeSignBytes msg)
  ephPub ++ bytesOfNat32 ((natOfBytes ephShare + c * natOfBytes shareKey) % ell)

/-- Modelled from the spec: the Shamir dealer splits a 32-byte secret into
`total` shares with threshold `t`; the polynomial coefficients are drawn
from fresh randomness, modelled by the explicit `seed` argument. -/
def DealShares (secret seed : List Nat) (threshold total : Nat) :
    List (List Nat) :=
  (List.range total).map (fun j =>
    bytesOfNat32 ((natOfBytes secret +
      ((List.range (threshold - 1)).map
        (fun i => (natOfBytes seed + i + 1) * (j + 1) ^ (i + 1))).sum) % ell))

end tsed25519

namespace edwards25519

/-- Modelled from the spec: `ScMinimal` holds exactly when the 32-byte
little-endian value is strictly below the Ed25519 group order. -/
def ScMinimal (b : List Nat) : Bool :=
  decide (natOfBytes b < ell)

end edwards25519

/-- Modelled from the spec: an RSA-OAEP ciphertext, idealized as the
recipient key identifier together with the plaintext it protects. -/
structure RSACipher where
  recipient : Nat
  plain : List Nat
deriving DecidableEq, Repr

/-- The signed surface of a share envelope: the canonical JSON marshalling
covers exactly `{SourceID, SourceEphemeralSecretPublicKey,
EncryptedSharePart}`; the injective serialization followed by SHA-256 is
idealized as the triple itself. -/
structure SignedSurface where
  sourceID : Nat
  sourceEphemeralSecretPublicKey : List Nat
  encryptedSharePart : RSACipher
deriving DecidableEq, Repr

/-- Modelled from the spec: an RSA-PSS signature, idealized as the signing
key identifier together with the digest that was signed. -/
structure RSASig where
  signerPub : Nat
  surface : SignedSurface
deriving DecidableEq, Repr

/-- Modelled from the spec: RSA-OAEP encryption under a public key
(idealized; key pairs are identified by a shared identifier). -/
def rsaEncryptOAEP (pub : Nat) (plain : List Nat) : RSACipher :=
  { recipient := pub, plain := plain }

/-- Modelled from the spec: RSA-OAEP decryption; succeeds exactly when the
ciphertext was produced for our key. -/
def rsaDecryptOAEP (priv : Nat) (c : RSACipher) : Except SignErr (List Nat) :=
  if c.recipient = priv then .ok c.plain else .error .cryptoError

/-- Modelled from the spec: RSA-PSS signing of a digest with our key. -/
def rsaSignPSS (priv : Nat) (s : SignedSurface) : RSASig :=
  { signerPub := priv, surface := s }

/-- Modelled from the spec: RSA-PSS verification succeeds exactly when the
signature was produced by the key matching `pub` over the same digest. -/
def rsaVerifyPSS (pub : Nat) (s : SignedSurface) (sig : RSASig) : Bool :=
  decide (sig.signerPub = pub ∧ sig.surface = s)

/-- Per-HRST, per-peer share knowledge; a zero-length share marks an empty
slot, as in the source. -/
structure PeerMetadata where
  share : List Nat
  ephemeralSecretPublicKey : List Nat
deriving DecidableEq, Repr

/-- Per-HRST metadata owned by the engine: our nonce, its Shamir split and
the peer slots. -/
structure HrsMetadata where
  secret : List Nat
  peers : List PeerMetadata
  dealtShares : List (List Nat)
deriving DecidableEq, Repr

/-- Modelled from the spec: the permanent cosigner key: our 1-based ID and
our Shamir share of the group signing key. -/
structure CosignerKey where
  id : Nat
  shareKey : List Nat
deriving DecidableEq, Repr

/-- Modelled from the spec: a configured peer: its ID and RSA public key. -/
structure CosignerPeer where
  id : Nat
  publicKey : Nat
deriving DecidableEq, Repr

/-- Modelled from the spec: the request for an ephemeral secret part; the
timestamp is in nanoseconds and its Go zero value is modelled as `0`. -/
structure CosignerGetEphemeralSecretPartRequest where
  height : Int
  round : Int
  step : Nat
  timestamp : Int
  id : Nat
deriving DecidableEq, Repr

/-- The share-part envelope returned by `getEphemeralSecretPart`. -/
structure CosignerEphemeralSecretPart where
  sourceID : Nat
  sourceEphemeralSecretPublicKey : List Nat
  encryptedSharePart : RSACipher
  sourceSig : Option RSASig
  destinationID : Nat
deriving DecidableEq, Repr

/-- Modelled from the spec: the request delivering a peer's share part. -/
structure CosignerSetEphemeralSecretPartRequest where
  sourceID : Nat
  sourceEphemeralSecretPublicKey : List Nat
  encryptedSharePart : RSACipher
  sourceSig : Option RSASig
  height : Int
  round : Int
  step : Nat
  timestamp : Int
deriving DecidableEq, Repr

/-- A sign request carries the vote sign bytes. -/
structure CosignerSignRequest where
  signBytes : SignBytes
deriving DecidableEq, Repr

/-- A sign response: the aggregated ephemeral public key and the partial
signature. -/
structure CosignerSignResponse where
  ephemeralPublic : List Nat
  signature : List Nat
deriving DecidableEq, Repr

/-- Association-list lookup, modelling Go map indexing. -/
def mapLookup {α β : Type} [DecidableEq α] : List (α × β) → α → Option β
  | [], _ => none
  | kv :: rest, k => if kv.1 = k then some kv.2 else mapLookup rest k

/-- Association-list insertion, modelling Go map assignment. -/
def mapInsert {α β : Type} [DecidableEq α] : List (α × β) → α → β → List (α × β)
  | [], k, v => [(k, v)]
  | kv :: rest, k, v =>
      if kv.1 = k then (k, v) :: rest else kv :: mapInsert rest k v

/-- The mutable state of `LocalSoftSignThresholdEd25519Signature`.  The
randomness source is modelled as the `entropy` stream consumed through the
`entCtr` cursor, so a state transition that draws randomness is visible as
an increment of the cursor. -/
structure CosignerState where
  pubKeyBytes : List Nat
  key : CosignerKey
  rsaKey : Nat
  total : Nat
  threshold : Nat
  lastSignState : SignState
  hrsMeta : List (HRSTKey × HrsMetadata)
  peers : List (Nat × CosignerPeer)
  entropy : Nat → List Nat
  entCtr : Nat

deriving instance DecidableEq for Except

/-- The peer slots holding a non-empty share, in slot order (the loop of
`sign` that skips zero-length shares). -/
def populatedPeers (meta : HrsMetadata) : List PeerMetadata :=
  meta.peers.filter (fun p => p.share.length != 0)

/-- The aggregated ephemeral share of a metadata entry. -/
def ephShareOf (meta : HrsMetadata) : List Nat :=
  tsed25519.AddScalars ((populatedPeers meta).map PeerMetadata.share)

/-- The aggregated ephemeral public key of a metadata entry. -/
def ephPublicOf (meta : HrsMetadata) : List Nat :=
  tsed25519.AddElements
    ((populatedPeers meta).map PeerMetadata.ephemeralSecretPublicKey)

/-- Translation of `dealShares` (threshold_ed25519_signature.go lines
164-195): return the cached metadata if the HRST is present, otherwise
draw a fresh 32-byte secret, Shamir-split it, install the entry and return
it.  The random draws of the secret and of the dealer are the two entropy
blocks at the cursor. -/
def dealShares (cosigner : CosignerState)
    (req : CosignerGetEphemeralSecretPartRequest) :
    HrsMetadata × CosignerState :=
  let hrsKey : HRSTKey :=
    { height := req.height, round := req.round, step := req.step,
      timestamp := req.timestamp }
  match mapLookup cosigner.hrsMeta hrsKey with
  | some meta => (meta, cosigner)
  | none =>
    let secret := cosigner.entropy cosigner.entCtr
    let seed := cosigner.entropy (cosigner.entCtr + 1)
    let meta : HrsMetadata :=
      { secret := secret
        peers := List.replicate cosigner.total { share := [], ephemeralSecretPublicKey := [] }
        dealtShares := tsed25519.DealShares secret seed cosigner.threshold cosigner.total }
    (meta,
      { cosigner with
          hrsMeta := mapInsert cosigner.hrsMeta hrsKey meta
          entCtr := cosigner.entCtr + 2 })

/-- Translation of the tail of `sign` (threshold_ed25519_signature.go lines
99-160): metadata lookup, aggregation of the populated peer slots, the
bounds check on the aggregated share, the signing primitive, the
`EphemeralPublic` assignment, `Save`, and the garbage collection of lower
HRST keys. -/
def signRound (cosigner : CosignerState) (req : CosignerSignRequest)
    (hrst : HRSTKey) (diskOk : Bool) :
    Except SignErr CosignerSignResponse × CosignerState :=
  match mapLookup cosigner.hrsMeta hrst with
  | none => (.error .noMetadataForHRS, cosigner)
  | some meta =>
    let ephemeralShare := ephShareOf meta
    let ephemeralPublic := ephPublicOf meta
    if ephemeralShare.length ≠ 32 then
      (.error .ephemeralShareOutOfBounds, cosigner)
    else if edwards25519.ScMinimal ephemeralShare = false then
      (.error .ephemeralShareOutOfBounds, cosigner)
    else
      let sig := tsed25519.SignWithShare req.signBytes cosigner.key.shareKey
        ephemeralShare cosigner.pubKeyBytes ephemeralPublic
      let c1 : CosignerState :=
        { cosigner with
            lastSignState :=
              { cosigner.lastSignState with ephemeralPublic := ephemeralPublic } }
      match SignState.Save c1.lastSignState
          { height := hrst.height, round := hrst.round, step := hrst.step,
            signature := sig, signBytes := req.signBytes } diskOk with
      | .error e =>
        if e = SignErr.sameHRSError then
          (.ok { ephemeralPublic := ephemeralPublic, signature := sig },
            { c1 with
                hrsMeta := c1.hrsMeta.filter
                  (fun kv => !(HRSTKey.Less kv.1 hrst)) })
        else (.error e, c1)
      | .ok lss2 =>
        (.ok { ephemeralPublic := ephemeralPublic, signature := sig },
          { c1 with
              lastSignState := lss2
              hrsMeta := c1.hrsMeta.filter
                (fun kv => !(HRSTKey.Less kv.1 hrst)) })

/-- Translation of `sign` (threshold_ed25519_signature.go lines 68-161):
unpack the HRST from the sign bytes, check HRS monotonicity, short-circuit
the idempotent replay, require a timestamp-only difference at the same
HRS, then run the signing round.  `diskOk` models whether the durable
write inside `Save` succeeds. -/
def sign (cosigner : CosignerState) (req : CosignerSignRequest)
    (diskOk : Bool) : Except SignErr CosignerSignResponse × CosignerState :=
  let lss := cosigner.lastSignState
  let hrst := UnpackHRST req.signBytes
  match SignState.CheckHRS lss hrst with
  | .error e => (.error e, cosigner)
  | .ok sameHRS =>
    if sameHRS then
      if req.signBytes = lss.signBytes then
        (.ok { ephemeralPublic := lss.ephemeralPublic,
               signature := lss.signature }, cosigner)
      else
        match SignState.OnlyDifferByTimestamp lss req.signBytes with
        | .error e => (.error e, cosigner)
        | .ok _ => signRound cosigner req hrst diskOk
    else signRound cosigner req hrst diskOk

/-- Translation of `getEphemeralSecretPart` (threshold_ed25519_signature.go
lines 200-278): look up or lazily deal the metadata for the request HRST
(the dealer request carries the request timestamp), fill our own peer
slot, then encrypt the requested share under the peer's RSA key and sign
the envelope.  The write into `meta.Peers` goes through a Go slice shared
with the map entry, so the model writes the updated metadata back under
the request key. -/
def getEphemeralSecretPart (cosigner : CosignerState)
    (req : CosignerGetEphemeralSecretPartRequest) :
    Except SignErr CosignerEphemeralSecretPart × CosignerState :=
  let hrst : HRSTKey :=
    { height := req.height, round := req.round, step := req.step,
      timestamp := req.timestamp }
  let found := mapLookup cosigner.hrsMeta hrst
  let meta := match found with
    | some m => m
    | none =>
      (dealShares cosigner
        { height := req.height, round := req.round, step := req.step,
          timestamp := req.timestamp, id := 0 }).1
  let c1 := match found with
    | some _ => cosigner
    | none =>
      let st := (dealShares cosigner
        { height := req.height, round := req.round, step := req.step,
          timestamp := req.timestamp, id := 0 }).2
      { st with hrsMeta := mapInsert st.hrsMeta hrst meta }
  let ourEphPublicKey := tsed25519.ScalarMultiplyBase meta.secret
  let meta1 : HrsMetadata :=
    { meta with
        peers := meta.peers.set (c1.key.id - 1)
          { share := meta.dealtShares.getD (c1.key.id - 1) []
            ephemeralSecretPublicKey := ourEphPublicKey } }
  let c2 := { c1 with hrsMeta := mapInsert c1.hrsMeta hrst meta1 }
  match mapLookup c2.peers req.id with
  | none => (.error .unknownPeer, c2)
  | some peer =>
    let sharePart := meta1.dealtShares.getD (req.id - 1) []
    let encrypted := rsaEncryptOAEP peer.publicKey sharePart
    let surface : SignedSurface :=
      { sourceID := c2.key.id
        sourceEphemeralSecretPublicKey := ourEphPublicKey
        encryptedSharePart := encrypted }
    let sourceSig := rsaSignPSS c2.rsaKey surface
    (.ok { sourceID := c2.key.id
           sourceEphemeralSecretPublicKey := ourEphPublicKey
           encryptedSharePart := encrypted
           sourceSig := some sourceSig
           destinationID := req.id }, c2)

/-- Translation of `setEphemeralSecretPart` (threshold_ed25519_signature.go
lines 282-352): require and verify the envelope signature before any state
is touched, look up or lazily deal the metadata — the dealer request is
built with only `Height`, `Round` and `Step`, so its timestamp takes the
Go zero value — then decrypt the share part and write the source peer's
slot.  When the metadata was lazily dealt, the dealer entry and the
request-key entry share one Go slice, so the slot write is visible through
both; the model writes the updated metadata back under both keys. -/
def setEphemeralSecretPart (cosigner : CosignerState)
    (req : CosignerSetEphemeralSecretPartRequest) :
    Except SignErr Unit × CosignerState :=
  match req.sourceSig with
  | none => (.error .missingSignature, cosigner)
  | some sig =>
    let surface : SignedSurface :=
      { sourceID := req.sourceID
        sourceEphemeralSecretPublicKey := req.sourceEphemeralSecretPublicKey
        encryptedSharePart := req.encryptedSharePart }
    match mapLookup cosigner.peers req.sourceID with
    | none => (.error .unknownPeer, cosigner)
    | some peer =>
      if rsaVerifyPSS peer.publicKey surface sig = false then
        (.error .peerAuthError, cosigner)
      else
        let hrst : HRSTKey :=
          { height := req.height, round := req.round, step := req.step,
            timestamp := req.timestamp }
        let dealKey : HRSTKey :=
          { height := req.height, round := req.round, step := req.step,
            timestamp := 0 }
        let found := mapLookup cosigner.hrsMeta hrst
        let meta := match found with
          | some m => m
          | none =>
            (dealShares cosigner
              { height := req.height, round := req.round, step := req.step,
                timestamp := 0, id := 0 }).1
        let c1 := match found with
          | some _ => cosigner
          | none =>
            let st := (dealShares cosigner
              { height := req.height, round := req.round, step := req.step,
                timestamp := 0, id := 0 }).2
            { st with hrsMeta := mapInsert st.hrsMeta hrst meta }
        match rsaDecryptOAEP c1.rsaKey req.encryptedSharePart with
        | .error e => (.error e, c1)
        | .ok sharePart =>
          let meta1 : HrsMetadata :=
            { meta with
                peers := meta.peers.set (req.sourceID - 1)
                  { share := sharePart
                    ephemeralSecretPublicKey :=
                      req.sourceEphemeralSecretPublicKey } }
          let c2 := { c1 with hrsMeta := mapInsert c1.hrsMeta hrst meta1 }
          let c3 := match found with
            | some _ => c2
            | none => { c2 with hrsMeta := mapInsert c2.hrsMeta dealKey meta1 }
          (.ok (), c3)

theorem natOfBytes_cons (b : Nat) (bs : List Nat) :
    natOfBytes (b :: bs) = b + 256 * natOfBytes bs := rfl

theorem bytesOfNatLE_length (k : Nat) : ∀ y, (bytesOfNatLE k y).length = k := by
  induction k with
  | zero => intro y; rfl
  | succ k ih => intro y; simp [bytesOfNatLE, ih]

theorem natOfBytes_bytesOfNatLE (k : Nat) :
    ∀ y, natOfBytes (bytesOfNatLE k y) = y % 256 ^ k := by
  induction k with
  | zero => intro y; simp [bytesOfNatLE, natOfBytes, Nat.mod_one]
  | succ k ih =>
    intro y
    rw [bytesOfNatLE, natOfBytes_cons, ih, pow_succ, mul_comm (256 ^ k) 256,
      Nat.mod_mul]

theorem ell_pos : 0 < ell := by norm_num [ell]

theorem AddScalars_length (xs : List (List Nat)) :
    (tsed25519.AddScalars xs).length = 32 :=
  bytesOfNatLE_length 32 _

theorem ScMinimal_AddScalars (xs : List (List Nat)) :
    edwards25519.ScMinimal (tsed25519.AddScalars xs) = true := by
  simp only [edwards25519.ScMinimal, tsed25519.AddScalars, bytesOfNat32,
    natOfBytes_bytesOfNatLE, decide_eq_true_eq]
  exact lt_of_le_of_lt (Nat.mod_le _ _) (Nat.mod_lt _ ell_pos)

theorem ephShareOf_length (meta : HrsMetadata) : (ephShareOf meta).length = 32 :=
  AddScalars_length _

theorem ScMinimal_ephShareOf (meta : HrsMetadata) :
    edwards25519.ScMinimal (ephShareOf meta) = true :=
  ScMinimal_AddScalars _

theorem mapLookup_mapInsert_self {α β : Type} [DecidableEq α]
    (m : List (α × β)) (k : α) (v : β) :
    mapLookup (mapInsert m k v) k = some v := by
  induction m with
  | nil => simp [mapInsert, mapLookup]
  | cons kv rest ih =>
    by_cases h : kv.1 = k <;> simp [mapInsert, mapLookup, h, ih]

theorem mapLookup_mapInsert_ne {α β : Type} [DecidableEq α]
    (m : List (α × β)) (k k' : α) (v : β) (h : k' ≠ k) :
    mapLookup (mapInsert m k v) k' = mapLookup m k' := by
  have h2 : ¬(k = k') := fun e => h e.symm
  induction m with
  | nil => simp [mapInsert, mapLookup, h2]
  | cons kv rest ih =>
    by_cases hk : kv.1 = k
    · simp [mapInsert, mapLookup, hk, h2]
    · simp [mapInsert, mapLookup, hk, ih]

theorem sameHRS_not_Less {a b : HRSTKey} (h : HRSTKey.sameHRS a b = true) :
    HRSTKey.Less a b = false := by
  simp only [HRSTKey.sameHRS, decide_eq_true_eq] at h
  simp only [HRSTKey.Less, decide_eq_false_iff_not]
  omega

theorem Less_asymm {a b : HRSTKey} (h : HRSTKey.Less a b = true) :
    HRSTKey.Less b a = false := by
  simp only [HRSTKey.Less, decide_eq_true_eq] at h
  simp only [HRSTKey.Less, decide_eq_false_iff_not]
  omega

theorem Less_not_sameHRS {a b : HRSTKey} (h : HRSTKey.Less a b = true) :
    HRSTKey.sameHRS b a = false := by
  simp only [HRSTKey.Less, decide_eq_true_eq] at h
  simp only [HRSTKey.sameHRS, decide_eq_false_iff_not]
  omega

/-- Claim C1: a sign request whose unpacked `(Height, Round, Step)` is
strictly less than the persisted last-sign-state HRS fails with
`RegressionError` before `hrsMeta` is touched: the returned state is the
input state unchanged, so no `hrsMeta` entry is created for the regressing
HRST and the persisted sign state is untouched. -/
theorem c1_regression_rejected (st : CosignerState) (req : CosignerSignRequest)
    (diskOk : Bool)
    (h : HRSTKey.Less (UnpackHRST req.signBytes) st.lastSignState.hrsKey = true) :
    sign st req diskOk = (.error .regressionError, st) := by
  simp [sign, SignState.CheckHRS, h]

def sbW : SignBytes :=
  { height := 10, round := 0, step := 2, timestamp := 100, blockID := [1, 2] }

def lssW : SignState :=
  { height := 10, round := 0, step := 2, signature := [7, 7],
    signBytes := sbW, ephemeralPublic := [9, 9] }

def entW : Nat → List Nat := fun _ => List.replicate 32 1

def stW : CosignerState :=
  { pubKeyBytes := [3], key := { id := 1, shareKey := [4] }, rsaKey := 1,
    total := 2, threshold := 2, lastSignState := lssW, hrsMeta := [],
    peers := [(1, { id := 1, publicKey := 1 }), (2, { id := 2, publicKey := 2 })],
    entropy := entW, entCtr := 0 }

def sbLow : SignBytes :=
  { height := 10, round := 0, step := 1, timestamp := 100, blockID := [1, 2] }

theorem c1_regression_rejected_witness :
    HRSTKey.Less (UnpackHRST sbLow) stW.lastSignState.hrsKey = true ∧
    sign stW { signBytes := sbLow } true = (.error .regressionError, stW) :=
  ⟨by decide, c1_regression_rejected stW { signBytes := sbLow } true (by decide)⟩

/-- Claim C2: a sign request at the same HRS as the persisted record whose
sign bytes differ from the persisted sign bytes in a field other than the
timestamp fails with `ConflictingDataError` via `OnlyDifferByTimestamp`,
the state is returned unchanged and no signature is produced. -/
theorem c2_conflicting_data_rejected (st : CosignerState)
    (req : CosignerSignRequest) (diskOk : Bool)
    (h1 : HRSTKey.sameHRS (UnpackHRST req.signBytes) st.lastSignState.hrsKey = true)
    (h2 : req.signBytes.stripTimestamp ≠ st.lastSignState.signBytes.stripTimestamp) :
    sign st req diskOk = (.error .conflictingDataError, st) := by
  have hb : req.signBytes ≠ st.lastSignState.signBytes := fun e => h2 (by rw [e])
  simp [sign, SignState.CheckHRS, sameHRS_not_Less h1, h1, hb,
    SignState.OnlyDifferByTimestamp, h2]

def sbConflict : SignBytes :=
  { height := 10, round := 0, step := 2, timestamp := 100, blockID := [8, 8] }

theorem c2_conflicting_data_rejected_witness :
    HRSTKey.sameHRS (UnpackHRST sbConflict) stW.lastSignState.hrsKey = true ∧
    sbConflict.stripTimestamp ≠ stW.lastSignState.signBytes.stripTimestamp ∧
    sign stW { signBytes := sbConflict } true = (.error .conflictingDataError, stW) :=
  ⟨by decide, by decide,
    c2_conflicting_data_rejected stW { signBytes := sbConflict } true
      (by decide) (by decide)⟩

/-- Claim C3: a sign request at the same HRS whose sign bytes are
byte-identical to the persisted sign bytes returns exactly the persisted
ephemeral public key and signature and leaves the state unchanged, so no
new durable write is performed. -/
theorem c3_replay_idempotent (st : CosignerState) (req : CosignerSignRequest)
    (diskOk : Bool)
    (h1 : HRSTKey.sameHRS (UnpackHRST req.signBytes) st.lastSignState.hrsKey = true)
    (h2 : req.signBytes = st.lastSignState.signBytes) :
    sign st req diskOk =
      (.ok { ephemeralPublic := st.lastSignState.ephemeralPublic,
             signature := st.lastSignState.signature }, st) := by
  have h1' := h1
  rw [h2] at h1'
  simp [sign, SignState.CheckHRS, sameHRS_not_Less h1', h1', h2]

theorem c3_replay_idempotent_witness :
    HRSTKey.sameHRS (UnpackHRST sbW) stW.lastSignState.hrsKey = true ∧
    sbW = stW.lastSignState.signBytes ∧
    sign stW { signBytes := sbW } true =
      (.ok { ephemeralPublic := stW.lastSignState.ephemeralPublic,
             signature := stW.lastSignState.signature }, stW) :=
  ⟨by decide, by decide,
    c3_replay_idempotent stW { signBytes := sbW } true (by decide) (by decide)⟩

/-- Claim C5: `dealShares` is idempotent per HRST: when the metadata map
already holds an entry for the request HRST, the stored metadata (same
secret and same dealt-shares vector) is returned and the state is
unchanged, so no new randomness is drawn (the entropy cursor does not
move) and no re-dealing occurs. -/
theorem c5_dealShares_idempotent (st : CosignerState)
    (req : CosignerGetEphemeralSecretPartRequest) (meta : HrsMetadata)
    (h : mapLookup st.hrsMeta
      { height := req.height, round := req.round, step := req.step,
        timestamp := req.timestamp } = some meta) :
    dealShares st req = (meta, st) := by
  simp [dealShares, h]

def metaW : HrsMetadata :=
  { secret := List.replicate 32 1
    peers := [{ share := [], ephemeralSecretPublicKey := [] },
              { share := [], ephemeralSecretPublicKey := [] }]
    dealtShares := [[1], [2]] }

def keyW : HRSTKey := { height := 11, round := 0, step := 1, timestamp := 5 }

def stW5 : CosignerState := { stW with hrsMeta := [(keyW, metaW)] }

def reqW5 : CosignerGetEphemeralSecretPartRequest :=
  { height := 11, round := 0, step := 1, timestamp := 5, id := 2 }

theorem c5_dealShares_idempotent_witness :
    mapLookup stW5.hrsMeta
      { height := reqW5.height, round := reqW5.round, step := reqW5.step,
        timestamp := reqW5.timestamp } = some metaW ∧
    dealShares stW5 reqW5 = (metaW, stW5) :=
  ⟨by decide, c5_dealShares_idempotent stW5 reqW5 metaW (by decide)⟩

/-- The partial signature `sign` produces for a metadata entry. -/
def sigOf (st : CosignerState) (req : CosignerSignRequest)
    (meta : HrsMetadata) : List Nat :=
  tsed25519.SignWithShare req.signBytes st.key.shareKey (ephShareOf meta)
    st.pubKeyBytes (ephPublicOf meta)

/-- Claim C10: when the durable write inside `Save` fails (modelled by
`diskOk = false`), `sign` returns the storage error, yet the in-memory
last sign state already carries the newly aggregated ephemeral public key:
the assignment happens before `Save` and is not rolled back. -/
theorem c10_ephemeral_public_overwritten (st : CosignerState)
    (req : CosignerSignRequest) (meta : HrsMetadata)
    (h1 : HRSTKey.Less st.lastSignState.hrsKey (UnpackHRST req.signBytes) = true)
    (hm : mapLookup st.hrsMeta (UnpackHRST req.signBytes) = some meta) :
    sign st req false =
      (.error .storageError,
       { st with lastSignState :=
           { st.lastSignState with ephemeralPublic := ephPublicOf meta } }) := by
  have hL := Less_asymm h1
  have hS := Less_not_sameHRS h1
  have h1c := h1
  simp only [HRSTKey.Less, SignState.hrsKey, decide_eq_true_eq] at h1c
  have hsame : HRSTKey.sameHRS
      { height := (UnpackHRST req.signBytes).height,
        round := (UnpackHRST req.signBytes).round,
        step := (UnpackHRST req.signBytes).step, timestamp := 0 }
      { height := st.lastSignState.height, round := st.lastSignState.round,
        step := st.lastSignState.step, timestamp := 0 } = false := by
    simp only [HRSTKey.sameHRS, decide_eq_false_iff_not]
    omega
  have hless : HRSTKey.Less
      { height := (UnpackHRST req.signBytes).height,
        round := (UnpackHRST req.signBytes).round,
        step := (UnpackHRST req.signBytes).step, timestamp := 0 }
      { height := st.lastSignState.height, round := st.lastSignState.round,
        step := st.lastSignState.step, timestamp := 0 } = false := by
    simp only [HRSTKey.Less, decide_eq_false_iff_not]
    omega
  simp only [SignState.hrsKey] at hL hS
  simp [sign, SignState.CheckHRS, hL, hS, signRound, hm, ephShareOf_length,
    ScMinimal_ephShareOf, SignState.Save, SignState.hrsKey,
    SignStateConsensus.hrsKey, hsame, hless]

def sbHigh : SignBytes :=
  { height := 12, round := 0, step := 2, timestamp := 200, blockID := [1, 2] }

def metaP : HrsMetadata :=
  { secret := List.replicate 32 1
    peers := [{ share := [5], ephemeralSecretPublicKey := [6] },
              { share := [], ephemeralSecretPublicKey := [] }]
    dealtShares := [[1], [2]] }

def stHi : CosignerState :=
  { stW with hrsMeta := [({ height := 12, round := 0, step := 2, timestamp := 200 }, metaP)] }

theorem c10_ephemeral_public_overwritten_witness :
    HRSTKey.Less stHi.lastSignState.hrsKey (UnpackHRST sbHigh) = true ∧
    mapLookup stHi.hrsMeta (UnpackHRST sbHigh) = some metaP ∧
    sign stHi { signBytes := sbHigh } false =
      (.error .storageError,
       { stHi with lastSignState :=
           { stHi.lastSignState with ephemeralPublic := ephPublicOf metaP } }) :=
  ⟨by decide, by decide,
    c10_ephemeral_public_overwritten stHi { signBytes := sbHigh } metaP
      (by decide) (by decide)⟩

/-- Claim C9: `sign` never compares the number of populated peer slots
against the configured threshold: even under the explicit hypothesis that
fewer than `threshold` slots are populated, a fresh-HRS sign request with
metadata present proceeds to produce the partial signature and persist it. -/
theorem c9_no_threshold_check (st : CosignerState) (req : CosignerSignRequest)
    (meta : HrsMetadata)
    (h1 : HRSTKey.Less st.lastSignState.hrsKey (UnpackHRST req.signBytes) = true)
    (hm : mapLookup st.hrsMeta (UnpackHRST req.signBytes) = some meta)
    (hcount : (populatedPeers meta).length < st.threshold) :
    sign st req true =
      (.ok { ephemeralPublic := ephPublicOf meta, signature := sigOf st req meta },
       { st with
           lastSignState :=
             { height := (UnpackHRST req.signBytes).height
               round := (UnpackHRST req.signBytes).round
               step := (UnpackHRST req.signBytes).step
               signature := sigOf st req meta
               signBytes := req.signBytes
               ephemeralPublic := ephPublicOf meta }
           hrsMeta := st.hrsMeta.filter
             (fun kv => !(HRSTKey.Less kv.1 (UnpackHRST req.signBytes))) }) := by
  have hL := Less_asymm h1
  have hS := Less_not_sameHRS h1
  have h1c := h1
  simp only [HRSTKey.Less, SignState.hrsKey, decide_eq_true_eq] at h1c
  have hsame : HRSTKey.sameHRS
      { height := (UnpackHRST req.signBytes).height,
        round := (UnpackHRST req.signBytes).round,
        step := (UnpackHRST req.signBytes).step, timestamp := 0 }
      { height := st.lastSignState.height, round := st.lastSignState.round,
        step := st.lastSignState.step, timestamp := 0 } = false := by
    simp only [HRSTKey.sameHRS, decide_eq_false_iff_not]
    omega
  have hless : HRSTKey.Less
      { height := (UnpackHRST req.signBytes).height,
        round := (UnpackHRST req.signBytes).round,
        step := (UnpackHRST req.signBytes).step, timestamp := 0 }
      { height := st.lastSignState.height, round := st.lastSignState.round,
        step := st.lastSignState.step, timestamp := 0 } = false := by
    simp only [HRSTKey.Less, decide_eq_false_iff_not]
    omega
  simp only [SignState.hrsKey] at hL hS
  simp [sign, SignState.CheckHRS, hL, hS, signRound, hm, ephShareOf_length,
    ScMinimal_ephShareOf, SignState.Save, SignState.hrsKey,
    SignStateConsensus.hrsKey, hsame, hless, sigOf]

theorem c9_no_threshold_check_witness :
    HRSTKey.Less stHi.lastSignState.hrsKey (UnpackHRST sbHigh) = true ∧
    mapLookup stHi.hrsMeta (UnpackHRST sbHigh) = some metaP ∧
    (populatedPeers metaP).length < stHi.threshold ∧
    sign stHi { signBytes := sbHigh } true =
      (.ok { ephemeralPublic := ephPublicOf metaP,
             signature := sigOf stHi { signBytes := sbHigh } metaP },
       { stHi with
           lastSignState :=
             { height := (UnpackHRST sbHigh).height
               round := (UnpackHRST sbHigh).round
               step := (UnpackHRST sbHigh).step
               signature := sigOf stHi { signBytes := sbHigh } metaP
               signBytes := sbHigh
               ephemeralPublic := ephPublicOf metaP }
           hrsMeta := stHi.hrsMeta.filter
             (fun kv => !(HRSTKey.Less kv.1 (UnpackHRST sbHigh))) }) :=
  ⟨by decide, by decide, by decide,
    c9_no_threshold_check stHi { signBytes := sbHigh } metaP
      (by decide) (by decide) (by decide)⟩

theorem dealShares_rsaKey (st : CosignerState)
    (req : CosignerGetEphemeralSecretPartRequest) :
    (dealShares st req).2.rsaKey = st.rsaKey := by
  simp only [dealShares]
  split <;> rfl

/-- Claim C7: `setEphemeralSecretPart` accepts an envelope only when
`SourceSig` is present and RSA-PSS verification of the signed surface
`{SourceID, SourceEphemeralSecretPublicKey, EncryptedSharePart}` succeeds
under the configured public key of the claimed source: a missing signature
or a failed verification returns an error with the state (hence every peer
slot) unchanged, and an accepted call implies a verifying signature. -/
theorem c7_auth_required (st : CosignerState)
    (req : CosignerSetEphemeralSecretPartRequest) :
    (req.sourceSig = none →
      setEphemeralSecretPart st req = (.error .missingSignature, st)) ∧
    (∀ sig peer, req.sourceSig = some sig →
      mapLookup st.peers req.sourceID = some peer →
      rsaVerifyPSS peer.publicKey
        { sourceID := req.sourceID,
          sourceEphemeralSecretPublicKey := req.sourceEphemeralSecretPublicKey,
          encryptedSharePart := req.encryptedSharePart } sig = false →
      setEphemeralSecretPart st req = (.error .peerAuthError, st)) ∧
    ((setEphemeralSecretPart st req).1 = .ok () →
      ∃ sig peer, req.sourceSig = some sig ∧
        mapLookup st.peers req.sourceID = some peer ∧
        rsaVerifyPSS peer.publicKey
          { sourceID := req.sourceID,
            sourceEphemeralSecretPublicKey := req.sourceEphemeralSecretPublicKey,
            encryptedSharePart := req.encryptedSharePart } sig = true) := by
  refine ⟨fun h => ?_, fun sig peer hs hp hv => ?_, fun hok => ?_⟩
  · simp [setEphemeralSecretPart, h]
  · simp [setEphemeralSecretPart, hs, hp, hv]
  · cases hs : req.sourceSig with
    | none => simp [setEphemeralSecretPart, hs] at hok
    | some sig =>
      cases hp : mapLookup st.peers req.sourceID with
      | none => simp [setEphemeralSecretPart, hs, hp] at hok
      | some peer =>
        by_cases hv : rsaVerifyPSS peer.publicKey
            { sourceID := req.sourceID,
              sourceEphemeralSecretPublicKey := req.sourceEphemeralSecretPublicKey,
              encryptedSharePart := req.encryptedSharePart } sig = false
        · simp [setEphemeralSecretPart, hs, hp, hv] at hok
        · refine ⟨sig, peer, rfl, rfl, ?_⟩
          revert hv
          cases rsaVerifyPSS peer.publicKey
            { sourceID := req.sourceID,
              sourceEphemeralSecretPublicKey := req.sourceEphemeralSecretPublicKey,
              encryptedSharePart := req.encryptedSharePart } sig <;> simp

def surfaceForged : SignedSurface :=
  { sourceID := 1, sourceEphemeralSecretPublicKey := [6],
    encryptedSharePart := { recipient := 1, plain := [5] } }

def reqForged : CosignerSetEphemeralSecretPartRequest :=
  { sourceID := 1, sourceEphemeralSecretPublicKey := [6],
    encryptedSharePart := { recipient := 1, plain := [5] },
    sourceSig := some { signerPub := 2, surface := surfaceForged },
    height := 12, round := 0, step := 2, timestamp := 200 }

theorem c7_auth_required_witness :
    reqForged.sourceSig = some { signerPub := 2, surface := surfaceForged } ∧
    mapLookup stW.peers reqForged.sourceID = some { id := 1, publicKey := 1 } ∧
    rsaVerifyPSS 1
      { sourceID := reqForged.sourceID,
        sourceEphemeralSecretPublicKey := reqForged.sourceEphemeralSecretPublicKey,
        encryptedSharePart := reqForged.encryptedSharePart }
      { signerPub := 2, surface := surfaceForged } = false ∧
    setEphemeralSecretPart stW reqForged = (.error .peerAuthError, stW) :=
  ⟨by decide, by decide, by decide,
    (c7_auth_required stW reqForged).2.1
      { signerPub := 2, surface := surfaceForged } { id := 1, publicKey := 1 }
      (by decide) (by decide) (by decide)⟩

/-- Claim C8: when `setEphemeralSecretPart` lazily creates the metadata (no
entry for the request HRST), it builds the dealer request without the
timestamp field, so the dealer keys the new metadata under an HRSTKey with
timestamp `0`; the `getEphemeralSecretPart` path instead hands the dealer
the request timestamp, so when the request timestamp is nonzero no
timestamp-`0` entry appears on that path. -/
theorem c8_lazy_deal_timestamp (st : CosignerState)
    (sreq : CosignerSetEphemeralSecretPartRequest)
    (greq : CosignerGetEphemeralSecretPartRequest) :
    (∀ sig peer, sreq.sourceSig = some sig →
      mapLookup st.peers sreq.sourceID = some peer →
      rsaVerifyPSS peer.publicKey
        { sourceID := sreq.sourceID,
          sourceEphemeralSecretPublicKey := sreq.sourceEphemeralSecretPublicKey,
          encryptedSharePart := sreq.encryptedSharePart } sig = true →
      mapLookup st.hrsMeta
        { height := sreq.height, round := sreq.round, step := sreq.step,
          timestamp := sreq.timestamp } = none →
      sreq.encryptedSharePart.recipient = st.rsaKey →
      ∃ m, mapLookup (setEphemeralSecretPart st sreq).2.hrsMeta
        { height := sreq.height, round := sreq.round, step := sreq.step,
          timestamp := 0 } = some m) ∧
    (mapLookup st.hrsMeta
        { height := greq.height, round := greq.round, step := greq.step,
          timestamp := greq.timestamp } = none →
      mapLookup st.hrsMeta
        { height := greq.height, round := greq.round, step := greq.step,
          timestamp := 0 } = none →
      greq.timestamp ≠ 0 →
      (∃ m, mapLookup (getEphemeralSecretPart st greq).2.hrsMeta
        { height := greq.height, round := greq.round, step := greq.step,
          timestamp := greq.timestamp } = some m) ∧
      mapLookup (getEphemeralSecretPart st greq).2.hrsMeta
        { height := greq.height, round := greq.round, step := greq.step,
          timestamp := 0 } = none) := by
  constructor
  · intro sig peer hs hp hv hn hd
    simp only [setEphemeralSecretPart, hs, hp, hv, hn, rsaDecryptOAEP,
      dealShares_rsaKey, hd, if_pos, Bool.true_eq_false, if_false]
    exact ⟨_, mapLookup_mapInsert_self _ _ _⟩
  · intro hn hn0 ht
    have hk : (⟨greq.height, greq.round, greq.step, 0⟩ : HRSTKey) ≠
        ⟨greq.height, greq.round, greq.step, greq.timestamp⟩ :=
      fun e => ht ((congrArg HRSTKey.timestamp e).symm)
    simp only [getEphemeralSecretPart, hn, dealShares, mapLookup_mapInsert_self]
    constructor
    · split <;> exact ⟨_, mapLookup_mapInsert_self _ _ _⟩
    · split <;>
        simp [mapLookup_mapInsert_ne _ _ _ _ hk, hn0]

def sreqOK : CosignerSetEphemeralSecretPartRequest :=
  { sourceID := 2, sourceEphemeralSecretPublicKey := [6],
    encryptedSharePart := { recipient := 1, plain := [5] },
    sourceSig := some { signerPub := 2, surface :=
      { sourceID := 2, sourceEphemeralSecretPublicKey := [6],
        encryptedSharePart := { recipient := 1, plain := [5] } } },
    height := 12, round := 0, step := 2, timestamp := 77 }

def greqOK : CosignerGetEphemeralSecretPartRequest :=
  { height := 12, round := 0, step := 2, timestamp := 77, id := 2 }

theorem c8_lazy_deal_timestamp_witness :
    mapLookup stW.hrsMeta
      { height := 12, round := 0, step := 2, timestamp := 77 } = none ∧
    (∃ m, mapLookup (setEphemeralSecretPart stW sreqOK).2.hrsMeta
      { height := 12, round := 0, step := 2, timestamp := 0 } = some m) ∧
    (∃ m, mapLookup (getEphemeralSecretPart stW greqOK).2.hrsMeta
      { height := 12, round := 0, step := 2, timestamp := 77 } = some m) ∧
    mapLookup (getEphemeralSecretPart stW greqOK).2.hrsMeta
      { height := 12, round := 0, step := 2, timestamp := 0 } = none :=
  ⟨by decide,
    (c8_lazy_deal_timestamp stW sreqOK greqOK).1
      { signerPub := 2, surface :=
        { sourceID := 2, sourceEphemeralSecretPublicKey := [6],
          encryptedSharePart := { recipient := 1, plain := [5] } } }
      { id := 2, publicKey := 2 }
      (by decide) (by decide) (by decide) (by decide) (by decide),
    ((c8_lazy_deal_timestamp stW sreqOK greqOK).2
      (by decide) (by decide) (by decide)).1,
    ((c8_lazy_deal_timestamp stW sreqOK greqOK).2
      (by decide) (by decide) (by decide)).2⟩

theorem sign_cases (st : CosignerState) (req : CosignerSignRequest)
    (diskOk : Bool) (h2 : req.signBytes ≠ st.lastSignState.signBytes) :
    (∃ e, sign st req diskOk = (.error e, st)) ∨
    sign st req diskOk = signRound st req (UnpackHRST req.signBytes) diskOk := by
  cases hc : SignState.CheckHRS st.lastSignState (UnpackHRST req.signBytes) with
  | error e => exact Or.inl ⟨e, by simp [sign, hc]⟩
  | ok sameHRS =>
    cases sameHRS with
    | false => exact Or.inr (by simp [sign, hc])
    | true =>
      cases ho : SignState.OnlyDifferByTimestamp st.lastSignState req.signBytes with
      | error e => exact Or.inl ⟨e, by simp [sign, hc, h2, ho]⟩
      | ok u => exact Or.inr (by simp [sign, hc, h2, ho])

theorem signRound_ok (st : CosignerState) (req : CosignerSignRequest)
    (hrst : HRSTKey) (diskOk : Bool) (res : CosignerSignResponse)
    (h : (signRound st req hrst diskOk).1 = .ok res) :
    ∃ meta, mapLookup st.hrsMeta hrst = some meta ∧
      res = { ephemeralPublic := ephPublicOf meta,
              signature := sigOf st req meta } ∧
      (signRound st req hrst diskOk).2.hrsMeta =
        st.hrsMeta.filter (fun kv => !(HRSTKey.Less kv.1 hrst)) := by
  cases hm : mapLookup st.hrsMeta hrst with
  | none =>
    have heq : signRound st req hrst diskOk = (.error .noMetadataForHRS, st) := by
      simp [signRound, hm]
    rw [heq] at h
    simp at h
  | some meta =>
    cases hs : SignState.Save
        { st.lastSignState with ephemeralPublic := ephPublicOf meta }
        { height := hrst.height, round := hrst.round, step := hrst.step,
          signature := tsed25519.SignWithShare req.signBytes st.key.shareKey
            (ephShareOf meta) st.pubKeyBytes (ephPublicOf meta),
          signBytes := req.signBytes }
        diskOk with
    | error e =>
      by_cases he : e = SignErr.sameHRSError
      · have heq : signRound st req hrst diskOk =
            (.ok { ephemeralPublic := ephPublicOf meta,
                   signature := sigOf st req meta },
             { st with
                 lastSignState :=
                   { st.lastSignState with ephemeralPublic := ephPublicOf meta }
                 hrsMeta := st.hrsMeta.filter
                   (fun kv => !(HRSTKey.Less kv.1 hrst)) }) := by
          simp [signRound, hm, ephShareOf_length, ScMinimal_ephShareOf, sigOf,
            hs, he]
        rw [heq] at h
        injection h with h
        exact ⟨meta, rfl, h.symm, by rw [heq]⟩
      · have heq : signRound st req hrst diskOk =
            (.error e,
             { st with lastSignState :=
                 { st.lastSignState with ephemeralPublic := ephPublicOf meta } }) := by
          simp [signRound, hm, ephShareOf_length, ScMinimal_ephShareOf, hs, he]
        rw [heq] at h
        simp at h
    | ok lss2 =>
      have heq : signRound st req hrst diskOk =
          (.ok { ephemeralPublic := ephPublicOf meta,
                 signature := sigOf st req meta },
           { st with
               lastSignState := lss2
               hrsMeta := st.hrsMeta.filter
                 (fun kv => !(HRSTKey.Less kv.1 hrst)) }) := by
        simp [signRound, hm, ephShareOf_length, ScMinimal_ephShareOf, sigOf, hs]
      rw [heq] at h
      injection h with h
      exact ⟨meta, rfl, h.symm, by rw [heq]⟩

/-- Claim C4: every signature `sign` produces (outside the idempotent
replay, which returns a previously produced signature) is computed by
`SignWithShare` from the aggregated ephemeral share of the metadata entry,
and that share is exactly 32 bytes and canonical (passes `ScMinimal`), so
the signing primitive never receives a non-canonical ephemeral share. -/
theorem c4_canonical_share_to_primitive (st : CosignerState)
    (req : CosignerSignRequest) (diskOk : Bool) (res : CosignerSignResponse)
    (h1 : (sign st req diskOk).1 = .ok res)
    (h2 : req.signBytes ≠ st.lastSignState.signBytes) :
    ∃ meta, mapLookup st.hrsMeta (UnpackHRST req.signBytes) = some meta ∧
      (ephShareOf meta).length = 32 ∧
      edwards25519.ScMinimal (ephShareOf meta) = true ∧
      res.signature = sigOf st req meta ∧
      res.ephemeralPublic = ephPublicOf meta := by
  rcases sign_cases st req diskOk h2 with ⟨e, he⟩ | hsr
  · rw [he] at h1
    simp at h1
  · rw [hsr] at h1
    obtain ⟨meta, hm, hres, hmap⟩ :=
      signRound_ok st req (UnpackHRST req.signBytes) diskOk res h1
    exact ⟨meta, hm, ephShareOf_length _, ScMinimal_ephShareOf _,
      by rw [hres], by rw [hres]⟩

theorem c4_canonical_share_to_primitive_witness :
    (sign stHi { signBytes := sbHigh } true).1 =
      .ok { ephemeralPublic := ephPublicOf metaP,
            signature := sigOf stHi { signBytes := sbHigh } metaP } ∧
    sbHigh ≠ stHi.lastSignState.signBytes ∧
    ∃ meta, mapLookup stHi.hrsMeta (UnpackHRST sbHigh) = some meta ∧
      (ephShareOf meta).length = 32 ∧
      edwards25519.ScMinimal (ephShareOf meta) = true ∧
      ({ ephemeralPublic := ephPublicOf metaP,
         signature := sigOf stHi { signBytes := sbHigh } metaP } :
        CosignerSignResponse).signature = sigOf stHi { signBytes := sbHigh } meta ∧
      ({ ephemeralPublic := ephPublicOf metaP,
         signature := sigOf stHi { signBytes := sbHigh } metaP } :
        CosignerSignResponse).ephemeralPublic = ephPublicOf meta :=
  ⟨by decide, by decide,
    c4_canonical_share_to_primitive stHi { signBytes := sbHigh } true
      { ephemeralPublic := ephPublicOf metaP,
        signature := sigOf stHi { signBytes := sbHigh } metaP }
      (by decide) (by decide)⟩

def stC6 : CosignerState :=
  { stW with hrsMeta := [({ height := 9, round := 0, step := 2, timestamp := 0 }, metaW)] }

/-- Claim C6 counterexample: the idempotent replay path returns success
without running the garbage-collection loop, so a `sign` call can return
success for HRST `(10,0,2,100)` while `hrsMeta` still holds the strictly
lower key `(9,0,2,0)` (populated after the earlier successful sign, e.g.
by a later `setEphemeralSecretPart` at the lower HRST). -/
theorem c6_gc_counterexample :
    (sign stC6 { signBytes := sbW } true).1 =
      .ok { ephemeralPublic := lssW.ephemeralPublic,
            signature := lssW.signature } ∧
    mapLookup (sign stC6 { signBytes := sbW } true).2.hrsMeta
      { height := 9, round := 0, step := 2, timestamp := 0 } = some metaW ∧
    HRSTKey.Less { height := 9, round := 0, step := 2, timestamp := 0 }
      (UnpackHRST sbW) = true := by
  decide

/-- Claim C6 amended: after every `sign` call that returns success by
performing a fresh signature — its sign bytes differ from the persisted
ones, so the idempotent replay short-circuit is not taken — the `hrsMeta`
map contains no key strictly less than the signed HRST. -/
theorem c6_gc_after_fresh_sign (st : CosignerState) (req : CosignerSignRequest)
    (diskOk : Bool) (res : CosignerSignResponse)
    (h1 : (sign st req diskOk).1 = .ok res)
    (h2 : req.signBytes ≠ st.lastSignState.signBytes) :
    ∀ k ∈ (sign st req diskOk).2.hrsMeta.map Prod.fst,
      HRSTKey.Less k (UnpackHRST req.signBytes) = false := by
  rcases sign_cases st req diskOk h2 with ⟨e, he⟩ | hsr
  · rw [he] at h1
    simp at h1
  · rw [hsr] at h1
    obtain ⟨meta, hm, hres, hmap⟩ :=
      signRound_ok st req (UnpackHRST req.signBytes) diskOk res h1
    rw [hsr, hmap]
    intro k hk
    simp only [List.mem_map] at hk
    obtain ⟨kv, hkv, rfl⟩ := hk
    have hmem := List.mem_filter.mp hkv
    simpa using hmem.2

def stHi2 : CosignerState :=
  { stW with hrsMeta :=
      [({ height := 12, round := 0, step := 2, timestamp := 200 }, metaP),
       ({ height := 9, round := 0, step := 2, timestamp := 0 }, metaW)] }

theorem c6_gc_after_fresh_sign_witness :
    (sign stHi2 { signBytes := sbHigh } true).1 =
      .ok { ephemeralPublic := ephPublicOf metaP,
            signature := sigOf stHi2 { signBytes := sbHigh } metaP } ∧
    sbHigh ≠ stHi2.lastSignState.signBytes ∧
    ∀ k ∈ (sign stHi2 { signBytes := sbHigh } true).2.hrsMeta.map Prod.fst,
      HRSTKey.Less k (UnpackHRST sbHigh) = false :=
  ⟨by decide, by decide,
    c6_gc_after_fresh_sign stHi2 { signBytes := sbHigh } true
      { ephemeralPublic := ephPublicOf metaP,
        signature := sigOf stHi2 { signBytes := sbHigh } metaP }
      (by decide) (by decide)⟩

end Horcrux
